import Mathlib

set_option maxRecDepth 100000

/-!
Shallow embedding of the shared-memory channel core of LiberTEM-live
(file src/libertem_live/channel.py): the `PoolAllocation` handle, the
`PoolShmAllocator` bump-plus-free-list allocator, the `ShmQueue` channel
(`put` / `_copy_to_shm` / scoped `get`) and the `WorkerPool`.

Machine-level conventions of the embedding:
- shared memory segments are modelled as total functions `Nat -> Nat`
  (byte index to byte value); a freshly created segment is zero-filled,
  matching POSIX shared memory;
- Python exceptions raised by the code under consideration are modelled
  with the `ShmError` enumeration (`RuntimeError` for an oversized
  request, `RuntimeError` for pool exhaustion, `AssertionError` for a
  failing `assert`), and functions that can raise return `Except`/pairs
  carrying the state reached when the exception propagates;
- `mp.Queue` instances are modelled as lists: `put`/`put_nowait` appends
  at the back, `get`/`get_nowait` pops at the front (FIFO);
- Python `list.pop()` pops the last element and `list.append` appends,
  so the allocator free list is a LIFO stack on the back of a list.
-/

namespace LiberTEMLive

/-- Exceptions raised by the channel code: `RuntimeError("allocation request
for size ... cannot be serviced")`, `RuntimeError("pool shm is out of
memory")`, and `AssertionError` from a failing `assert`. -/
inductive ShmError where
  | capacityError
  | outOfMemory
  | assertionError
deriving DecidableEq, Repr

/-- Structure `PoolAllocation` from channel.py: an immutable handle naming a located,
sized region of a shared segment. -/
structure PoolAllocation where
  shm_name : String
  handle : Nat
  full_size : Nat
  req_size : Nat
deriving DecidableEq, Repr

/-- Method `PoolAllocation.resize`: `assert new_req_size <= self.full_size`, then
return the handle with only `req_size` replaced.  The failing assertion is
modelled as `none`. -/
def PoolAllocation.resize (a : PoolAllocation) (new_req_size : Nat) :
    Option PoolAllocation :=
  if new_req_size ≤ a.full_size then
    some { shm_name := a.shm_name, handle := a.handle,
           full_size := a.full_size, req_size := new_req_size }
  else
    none

/-- Write `data` into a byte store at byte offset `offset`
(`arr_shm[:] = src_arr` after slicing the segment buffer). -/
def writeMem (mem : Nat → Nat) (offset : Nat) (data : List Nat) : Nat → Nat :=
  fun i => if offset ≤ i ∧ i < offset + data.length then data.getD (i - offset) 0 else mem i

/-- Read `len` bytes starting at byte offset `offset` from a byte store
(the contents of the memoryview `buf[offset:offset+len]`). -/
def readMem (mem : Nat → Nat) (offset len : Nat) : List Nat :=
  (List.range len).map (fun i => mem (offset + i))

/-- State of `PoolShmAllocator`: fixed item size, aligned total segment size,
segment name, free list of byte offsets, bump watermark `_used`, and the
bytes of the backing shared-memory segment (`_shm.buf`). -/
structure PoolShmAllocator where
  item_size : Nat
  size : Nat
  name : String
  free : List Nat
  used : Nat
  mem : Nat → Nat

/-- Alignment constant `PoolShmAllocator.ALIGN_TO = 4096`. -/
def ALIGN_TO : Nat := 4096

/-- Constructor `PoolShmAllocator.__init__(item_size, size_num_items)`: the segment size
is `item_size * size_num_items` rounded up to a multiple of `ALIGN_TO`; the
free list starts empty and the watermark at 0.  A fresh POSIX shared-memory
segment is zero-filled.  (`SharedMemory(create=True, size=...)` requires a
positive size, so `item_size * size_num_items = 0` never constructs.) -/
def PoolShmAllocator.init (item_size size_num_items : Nat) (name : String) :
    PoolShmAllocator :=
  { item_size := item_size
    size := ALIGN_TO * ((item_size * size_num_items + (ALIGN_TO - 1)) / ALIGN_TO)
    name := name
    free := []
    used := 0
    mem := fun _ => 0 }

/-- Method `PoolShmAllocator.allocate(req_size)`: raise if `req_size` exceeds the
item size; otherwise pop the last free-list entry if there is one; otherwise
bump the watermark if `_used + _item_size < _size` (strict comparison, as in
the source); otherwise raise out-of-memory. -/
def PoolShmAllocator.allocate (a : PoolShmAllocator) (req_size : Nat) :
    Except ShmError (PoolAllocation × PoolShmAllocator) :=
  if req_size > a.item_size then
    .error .capacityError
  else
    match a.free.getLast? with
    | some offset =>
        .ok ({ shm_name := a.name, handle := offset,
               full_size := a.item_size, req_size := req_size },
             { a with free := a.free.dropLast })
    | none =>
        if a.used + a.item_size < a.size then
          .ok ({ shm_name := a.name, handle := a.used,
                 full_size := a.item_size, req_size := req_size },
               { a with used := a.used + a.item_size })
        else
          .error .outOfMemory

/-- Method `PoolShmAllocator.recycle(allocation)`: append the handle's offset to the
free list. -/
def PoolShmAllocator.recycle (a : PoolShmAllocator) (alloc : PoolAllocation) :
    PoolShmAllocator :=
  { a with free := a.free ++ [alloc.handle] }

/-- The hard-coded pool configuration in `ShmQueue._copy_to_shm`:
`PoolShmAllocator(item_size=512*512*4*2, size_num_items=128*128)`. -/
def defaultItemSize : Nat := 512 * 512 * 4 * 2

/-- Slot count `size_num_items` of the lazily created pool in `ShmQueue._copy_to_shm`. -/
def defaultNumItems : Nat := 128 * 128

/-- State of `ShmQueue`: the metadata queue `q` (tuples of pickled header, the
type tag string, and an optional payload handle), the release queue, and the
lazily created allocator `_psa` holding the bytes of its shared segment.
The `PoolShmClient` reader resolves a handle by name to the same shared
segment, so the model reads payload bytes from the allocator's segment; the
reader's attachment cache `_shm_cache` carries no observable state here.
Headers round-trip through `pickle.dumps`/`pickle.loads`, modelled as the
identity on an arbitrary header type `α`. -/
structure ShmQueue (α : Type) where
  q : List (α × String × Option PoolAllocation)
  release_q : List PoolAllocation
  psa : Option PoolShmAllocator

/-- Constructor `ShmQueue.__init__`: empty queues, no allocator yet. -/
def ShmQueue.init {α : Type} : ShmQueue α :=
  { q := [], release_q := [], psa := none }

/-- Method `ShmQueue._copy_to_shm(src_buffer)`: create the allocator on first use;
pop a handle from the release queue and `resize` it if possible, otherwise
allocate fresh; check `assert payload_shm.nbytes == size` (the memoryview
`buf[offset:offset+size]` is shorter than `size` exactly when
`offset + size` overruns the segment and `size > 0`); copy the source bytes
into the slot.  Returns the result together with the state reached, also
when an exception propagates. -/
def ShmQueue.copyToShm {α : Type} (c : ShmQueue α) (src : List Nat) :
    Except ShmError PoolAllocation × ShmQueue α :=
  let psa := c.psa.getD (PoolShmAllocator.init defaultItemSize defaultNumItems "shm_queue_pool")
  let size := src.length
  match c.release_q with
  | alloc_handle :: restQ =>
      match alloc_handle.resize size with
      | some h2 =>
          if size = 0 ∨ h2.handle + size ≤ psa.size then
            (.ok h2, { c with psa := some { psa with mem := writeMem psa.mem h2.handle src },
                              release_q := restQ })
          else
            (.error .assertionError, { c with psa := some psa, release_q := restQ })
      | none =>
          (.error .assertionError, { c with psa := some psa, release_q := restQ })
  | [] =>
      match psa.allocate size with
      | .ok (h, psa1) =>
          if size = 0 ∨ h.handle + size ≤ psa1.size then
            (.ok h, { c with psa := some { psa1 with mem := writeMem psa1.mem h.handle src } })
          else
            (.error .assertionError, { c with psa := some psa1 })
      | .error e =>
          (.error e, { c with psa := some psa })

/-- Method `ShmQueue.put(header, payload)`: copy the payload (if any) to shared
memory, then enqueue `(pickle.dumps(header), 'bytes', payload_shm)` on the
metadata queue.  If `_copy_to_shm` raises, the exception propagates and
nothing is enqueued. -/
def ShmQueue.put {α : Type} (c : ShmQueue α) (header : α) (payload : Option (List Nat)) :
    Except ShmError Unit × ShmQueue α :=
  match payload with
  | some src =>
      match c.copyToShm src with
      | (.ok h, c2) => (.ok (), { c2 with q := c2.q ++ [(header, "bytes", some h)] })
      | (.error e, c2) => (.error e, c2)
  | none =>
      (.ok (), { c with q := c.q ++ [(header, "bytes", none)] })

/-- Resolve a payload handle to the contents of the zero-copy view
`shm.buf[offset:offset+req_size]` (`PoolShmClient.get`): the named segment
holds the allocator's bytes; before any write a segment is zero-filled. -/
def ShmQueue.readPayload {α : Type} (c : ShmQueue α) (h : PoolAllocation) : List Nat :=
  match c.psa with
  | some a => readMem a.mem h.handle h.req_size
  | none => readMem (fun _ => 0) h.handle h.req_size

/-- Outcome of one scoped `ShmQueue.get`:
`empty` when the metadata queue holds nothing (the `Empty`/timeout path);
otherwise the dequeued header, the payload view handed to the consumer's
block, what the block did (`none` when the type tag is not "bytes", so the
generator never yields), and whether the view was released on exit. -/
inductive GetOutcome (α ε β : Type) where
  | empty
  | finished (header : α) (view : Option (List Nat))
      (body : Option (Except ε β)) (viewReleased : Bool)

/-- The `viewReleased` flag of a finished `GetOutcome`. -/
def GetOutcome.releasedFlag {α ε β : Type} : GetOutcome α ε β → Bool
  | .empty => false
  | .finished _ _ _ r => r

/-- The scoped `ShmQueue.get()` context manager: dequeue the front message,
resolve the payload handle to a view, yield `(header, view)` to the
consumer's block whose result or exception is `outcome`, and in the
`finally` block release the view and push the handle (if any) onto the
release queue — on every exit path, whether `outcome` is a normal result or
an exception. -/
def ShmQueue.getScoped {α ε β : Type} (c : ShmQueue α) (outcome : Except ε β) :
    GetOutcome α ε β × ShmQueue α :=
  match c.q with
  | [] => (.empty, c)
  | (header, typ, payload_handle) :: restMsgs =>
      let view := payload_handle.map (fun h => c.readPayload h)
      let body := if typ = "bytes" then some outcome else none
      let rq := match payload_handle with
        | some h => c.release_q ++ [h]
        | none => c.release_q
      (.finished header view body view.isSome, { c with q := restMsgs, release_q := rq })

/-- Structure `WorkerQueues` from channel.py: the pair of channels handed to one
worker.  Channels are identified by the identity of the `ShmQueue` object;
each evaluation of `ShmQueue()` yields a fresh object, modelled by a fresh
numeric identifier drawn from a counter. -/
structure WorkerQueues where
  request : Nat
  response : Nat
deriving DecidableEq, Repr

/-- State of `WorkerPool`: the ordered `(queues, process)` list built by
`_start_workers` (processes modelled by their loop index `i`), and the
single shared response channel created in `__init__`. -/
structure WorkerPool where
  workers : List (WorkerQueues × Nat)
  response_q : Nat
deriving DecidableEq, Repr

/-- Method `WorkerPool._make_worker_queues()`: a fresh request `ShmQueue()` (next
identifier from the counter) paired with the shared response channel. -/
def WorkerPool.makeWorkerQueues (respId fresh : Nat) : WorkerQueues × Nat :=
  ({ request := fresh, response := respId }, fresh + 1)

/-- Method `WorkerPool._start_workers()`: `for i in range(processes)`, make the
worker's queues, start a process with `(queues, i)`, and append the pair. -/
def WorkerPool.startWorkers (respId : Nat) : Nat → Nat → Nat → List (WorkerQueues × Nat)
  | 0, _, _ => []
  | count + 1, i, fresh =>
      let made := WorkerPool.makeWorkerQueues respId fresh
      (made.1, i) :: WorkerPool.startWorkers respId count (i + 1) made.2

/-- Constructor `WorkerPool.__init__(processes, worker_fn)`: create the shared response
`ShmQueue()` (identifier 0), then start the workers (request channel
identifiers 1, 2, ...). -/
def WorkerPool.create (processes : Nat) : WorkerPool :=
  { workers := WorkerPool.startWorkers 0 processes 0 1
    response_q := 0 }

/-- Method `WorkerPool.all_worker_queues()`: yield the queues of each worker in
list order; re-iterating traverses the same fixed list again. -/
def WorkerPool.allWorkerQueues (p : WorkerPool) : List WorkerQueues :=
  p.workers.map (fun w => w.1)

/-- One producer-side pool operation: an `allocate(req)` call, or a
`recycle` of the i-th currently in-use handle. -/
inductive PoolOp where
  | alloc (req : Nat)
  | recycle (i : Nat)
deriving DecidableEq, Repr

/-- Allocator together with the handles issued and not yet recycled
(in-use), for reasoning about sequences of `allocate`/`recycle` calls. -/
structure AllocModelState where
  a : PoolShmAllocator
  live : List PoolAllocation

/-- Run one pool operation.  `none` models a call outside the stated
precondition: an `allocate` that raises, or a `recycle` whose argument is
not a currently in-use handle. -/
def stepOp (s : AllocModelState) : PoolOp → Option (AllocModelState × Option PoolAllocation)
  | .alloc req =>
      match s.a.allocate req with
      | .ok (h, a2) => some ({ a := a2, live := s.live ++ [h] }, some h)
      | .error _ => none
  | .recycle i =>
      match s.live.get? i with
      | some h => some ({ a := s.a.recycle h, live := s.live.eraseIdx i }, none)
      | none => none

/-- Run a sequence of pool operations, collecting every handle returned by
`allocate` along the way. -/
def runOps (s : AllocModelState) : List PoolOp → Option (AllocModelState × List PoolAllocation)
  | [] => some (s, [])
  | op :: ops =>
      match stepOp s op with
      | some (s2, hOpt) =>
          match runOps s2 ops with
          | some (s3, hs) => some (s3, hOpt.toList ++ hs)
          | none => none
      | none => none

/-- Repeat `n` successive `allocate(req)` calls on one allocator, keeping only the
final allocator state (or the first exception). -/
def allocTimes (a : PoolShmAllocator) (req : Nat) : Nat → Except ShmError PoolShmAllocator
  | 0 => .ok a
  | n + 1 =>
      match a.allocate req with
      | .ok (_, a2) => allocTimes a2 req n
      | .error e => .error e

/-- Reading back the bytes just written at the same offset returns exactly
the written data. -/
theorem readMem_writeMem (mem : Nat → Nat) (offset : Nat) (data : List Nat) :
    readMem (writeMem mem offset data) offset data.length = data := by
  apply List.ext_getElem
  · simp [readMem]
  · intro i h1 h2
    simp only [readMem, List.getElem_map, List.getElem_range]
    have hcond : offset ≤ offset + i ∧ offset + i < offset + data.length :=
      ⟨Nat.le_add_right _ _, by omega⟩
    simp only [writeMem, if_pos hcond, Nat.add_sub_cancel_left]
    exact List.getD_eq_getElem data 0 h2

/-- Claim C7: for every handle `h` and every `new_req_size` at most the slot
capacity, `resize` succeeds and returns a handle with the same segment name,
offset and slot capacity, whose requested size is `new_req_size`; every
handle so produced satisfies requested size ≤ slot capacity. -/
theorem resize_spec (h : PoolAllocation) (n : Nat) (hn : n ≤ h.full_size) :
    h.resize n = some { shm_name := h.shm_name, handle := h.handle,
                        full_size := h.full_size, req_size := n } ∧
    ∀ h2, h.resize n = some h2 →
      h2.shm_name = h.shm_name ∧ h2.handle = h.handle ∧
      h2.full_size = h.full_size ∧ h2.req_size = n ∧ h2.req_size ≤ h2.full_size := by
  refine ⟨by simp [PoolAllocation.resize, hn], ?_⟩
  intro h2 hh2
  simp only [PoolAllocation.resize, if_pos hn, Option.some.injEq] at hh2
  subst hh2
  exact ⟨rfl, rfl, rfl, rfl, hn⟩

/-- Witness for C7 at a concrete handle and size. -/
theorem resize_spec_witness :
    3 ≤ (PoolAllocation.mk "seg" 64 8 8).full_size ∧
    (PoolAllocation.mk "seg" 64 8 8).resize 3 = some (PoolAllocation.mk "seg" 64 8 3) :=
  ⟨by decide, (resize_spec (PoolAllocation.mk "seg" 64 8 8) 3 (by decide)).1⟩

/-- Claim C6: the free list is LIFO — after `recycle h`, the next `allocate`
with an admissible requested size returns the offset of `h` (popped from the
back of the free list) and leaves the watermark and the rest of the free
list as they were. -/
theorem recycle_allocate_lifo (a : PoolShmAllocator) (h : PoolAllocation) (req : Nat)
    (hreq : req ≤ a.item_size) :
    (a.recycle h).allocate req
      = .ok ({ shm_name := a.name, handle := h.handle,
               full_size := a.item_size, req_size := req }, a) := by
  have hnotbig : ¬ (req > a.item_size) := Nat.not_lt.mpr hreq
  simp [PoolShmAllocator.recycle, PoolShmAllocator.allocate, hnotbig,
    List.getLast?_concat, List.dropLast_concat]

/-- Witness for C6 at a concrete allocator state and handle. -/
theorem recycle_allocate_lifo_witness :
    7 ≤ (PoolShmAllocator.init 16 4 "pool").item_size ∧
    ((PoolShmAllocator.init 16 4 "pool").recycle (PoolAllocation.mk "pool" 0 16 5)).allocate 7
      = .ok (PoolAllocation.mk "pool" 0 16 7, PoolShmAllocator.init 16 4 "pool") :=
  ⟨by decide,
   recycle_allocate_lifo (PoolShmAllocator.init 16 4 "pool")
     (PoolAllocation.mk "pool" 0 16 5) 7 (by decide)⟩

/-- Claim C3 (amended): full case analysis of `allocate(req_size)`: an
oversized request raises the capacity error; otherwise a non-empty free list
is popped from the back; otherwise, when the watermark plus one slot is
STRICTLY below the segment size the watermark offset is returned and the
watermark advanced; otherwise (including the exact-fit boundary
`used + item_size = size`) the out-of-memory error is raised. -/
theorem allocate_spec (a : PoolShmAllocator) (req : Nat) :
    (a.item_size < req → a.allocate req = .error .capacityError) ∧
    (∀ off, req ≤ a.item_size → a.free.getLast? = some off →
        a.allocate req = .ok ({ shm_name := a.name, handle := off,
                                full_size := a.item_size, req_size := req },
                              { a with free := a.free.dropLast })) ∧
    (req ≤ a.item_size → a.free = [] → a.used + a.item_size < a.size →
        a.allocate req = .ok ({ shm_name := a.name, handle := a.used,
                                full_size := a.item_size, req_size := req },
                              { a with used := a.used + a.item_size })) ∧
    (req ≤ a.item_size → a.free = [] → a.size ≤ a.used + a.item_size →
        a.allocate req = .error .outOfMemory) := by
  refine ⟨?_, ?_, ?_, ?_⟩
  · intro hbig
    simp [PoolShmAllocator.allocate, hbig]
  · intro off hreq hlast
    have hnotbig : ¬ (req > a.item_size) := Nat.not_lt.mpr hreq
    simp [PoolShmAllocator.allocate, hnotbig, hlast]
  · intro hreq hfree hfits
    have hnotbig : ¬ (req > a.item_size) := Nat.not_lt.mpr hreq
    simp [PoolShmAllocator.allocate, hnotbig, hfree, hfits]
  · intro hreq hfree hfull
    have hnotbig : ¬ (req > a.item_size) := Nat.not_lt.mpr hreq
    have hnofit : ¬ (a.used + a.item_size < a.size) := Nat.not_lt.mpr hfull
    simp [PoolShmAllocator.allocate, hnotbig, hfree, hnofit]

/-- Witness for C3 (amended), exercising all four branches of
`allocate_spec` at concrete states. -/
theorem allocate_spec_witness :
    ((PoolShmAllocator.init 4 2 "w").item_size < 9 ∧
      (PoolShmAllocator.init 4 2 "w").allocate 9 = .error .capacityError) ∧
    (({ PoolShmAllocator.init 4 2 "w" with free := [0, 8] }).allocate 3
      = .ok (PoolAllocation.mk "w" 8 4 3,
             { PoolShmAllocator.init 4 2 "w" with free := [0] })) ∧
    ((PoolShmAllocator.init 4 2 "w").allocate 3
      = .ok (PoolAllocation.mk "w" 0 4 3,
             { PoolShmAllocator.init 4 2 "w" with used := 4 })) ∧
    (({ PoolShmAllocator.init 4 2 "w" with used := 4092 }).allocate 3
      = .error .outOfMemory) :=
  ⟨⟨by decide, (allocate_spec (PoolShmAllocator.init 4 2 "w") 9).1 (by decide)⟩,
   (allocate_spec ({ PoolShmAllocator.init 4 2 "w" with free := [0, 8] }) 3).2.1
      8 (by decide) (by decide),
   (allocate_spec (PoolShmAllocator.init 4 2 "w") 3).2.2.1 (by decide) rfl (by decide),
   (allocate_spec ({ PoolShmAllocator.init 4 2 "w" with used := 4092 }) 3).2.2.2
      (by decide) rfl (by decide)⟩

/-- Counterexample to C3 as stated: in the reachable state after three
1024-byte allocations from a pool of item size 1024 and four slots (segment
size exactly 4096), the free list is empty and the watermark plus one slot
fits within the segment (3072 + 1024 ≤ 4096), yet `allocate` raises
out-of-memory instead of returning the watermark offset, because the code
compares with strict less-than. -/
theorem allocate_exact_fit_counterexample :
    allocTimes (PoolShmAllocator.init 1024 4 "pool") 1024 3
      = .ok { PoolShmAllocator.init 1024 4 "pool" with used := 3072 } ∧
    ({ PoolShmAllocator.init 1024 4 "pool" with used := 3072 }).free = [] ∧
    ({ PoolShmAllocator.init 1024 4 "pool" with used := 3072 }).used + 1024
      ≤ ({ PoolShmAllocator.init 1024 4 "pool" with used := 3072 }).size ∧
    ({ PoolShmAllocator.init 1024 4 "pool" with used := 3072 }).allocate 1024
      = .error .outOfMemory :=
  ⟨rfl, rfl, by decide, rfl⟩

/-- Counterexample to C4 as stated: with slot count 2 and slot size 1024 the
segment is rounded up to 4096 bytes, so the third consecutive allocation
SUCCEEDS (at offset 2048) instead of raising out-of-memory. -/
theorem exhaustion_third_succeeds :
    allocTimes (PoolShmAllocator.init 1024 2 "pool") 1024 3
      = .ok { PoolShmAllocator.init 1024 2 "pool" with used := 3072 } := rfl

/-- Claim C4 (amended): with slot count 2 and slot size 1024 (segment
rounded up to 4096 bytes), the first three consecutive 1024-byte
allocations with no intervening recycle succeed and the fourth raises
out-of-memory. -/
theorem exhaustion_fourth_fails :
    allocTimes (PoolShmAllocator.init 1024 2 "pool") 1024 3
      = .ok { PoolShmAllocator.init 1024 2 "pool" with used := 3072 } ∧
    allocTimes (PoolShmAllocator.init 1024 2 "pool") 1024 4
      = .error .outOfMemory :=
  ⟨rfl, rfl⟩

/-- The channel of the oversize scenario of claim C8: a channel whose pool
was created with slot size 1024 and two slots, nothing in flight. -/
def oversizeChannel : ShmQueue Nat :=
  { q := [], release_q := [], psa := some (PoolShmAllocator.init 1024 2 "pool") }

/-- Claim C8: with slot size 1024, `put(header, payload=bytes(2048))` raises
the capacity error and leaves the allocator's watermark and free list, the
release queue and the metadata queue unchanged. -/
theorem put_oversize_atomic :
    ((oversizeChannel.put 7 (some (List.replicate 2048 0))).1 = .error .capacityError) ∧
    ((oversizeChannel.put 7 (some (List.replicate 2048 0))).2.psa.map
        (fun a => (a.used, a.free)) = some (0, [])) ∧
    ((oversizeChannel.put 7 (some (List.replicate 2048 0))).2.release_q = []) ∧
    ((oversizeChannel.put 7 (some (List.replicate 2048 0))).2.q = []) := by
  refine ⟨?_, ?_, ?_, ?_⟩ <;>
    simp [oversizeChannel, ShmQueue.put, ShmQueue.copyToShm,
      PoolShmAllocator.allocate, PoolShmAllocator.init]

/-- Claim C1: round-trip through a channel — for every byte buffer `B` of
at most the slot size, after `put(header, B)` on a fresh channel the next
scoped `get()` yields the same header together with a payload view whose
contents exactly equal `B`. -/
theorem put_get_roundtrip {α ε β : Type} (header : α) (B : List Nat) (outcome : Except ε β)
    (hlen : B.length ≤ defaultItemSize) :
    ((ShmQueue.init.put header (some B)).1 = .ok ()) ∧
    (((ShmQueue.init.put header (some B)).2.getScoped outcome).1
        = .finished header (some B) (some outcome) true) := by
  have hnotbig : ¬ (B.length > defaultItemSize) := Nat.not_lt.mpr hlen
  have hfits : defaultItemSize
      < ALIGN_TO * ((defaultItemSize * defaultNumItems + (ALIGN_TO - 1)) / ALIGN_TO) := by
    decide
  have hinseg : B.length
      ≤ ALIGN_TO * ((defaultItemSize * defaultNumItems + (ALIGN_TO - 1)) / ALIGN_TO) := by
    have h2 : defaultItemSize
        ≤ ALIGN_TO * ((defaultItemSize * defaultNumItems + (ALIGN_TO - 1)) / ALIGN_TO) := by
      decide
    omega
  simp [ShmQueue.init, ShmQueue.put, ShmQueue.copyToShm, PoolShmAllocator.allocate,
    PoolShmAllocator.init, ShmQueue.getScoped, ShmQueue.readPayload, hnotbig, hfits, hinseg,
    readMem_writeMem]

/-- Witness for C1: a concrete three-byte payload round-trips, also when the
consumer's block terminates with an exception. -/
theorem put_get_roundtrip_witness :
    ([1, 2, 3] : List Nat).length ≤ defaultItemSize ∧
    ((((ShmQueue.init.put (42 : Nat) (some [1, 2, 3])).2.getScoped
        (Except.error () : Except Unit Unit)).1)
      = .finished 42 (some [1, 2, 3]) (some (Except.error ())) true) :=
  ⟨by decide, (put_get_roundtrip 42 [1, 2, 3] (Except.error ()) (by decide)).2⟩

/-- Claim C2: for every dequeued message carrying a payload handle, on scope
exit the view is released and the handle is pushed onto the release queue
exactly once — regardless of whether the consumer's block finished normally
or raised (`outcome` ranges over both). -/
theorem get_releases_handle_once {α ε β : Type} (c : ShmQueue α) (header : α) (typ : String)
    (h : PoolAllocation) (rest : List (α × String × Option PoolAllocation))
    (outcome : Except ε β) (hq : c.q = (header, typ, some h) :: rest) :
    ((c.getScoped outcome).2.release_q = c.release_q ++ [h]) ∧
    ((c.getScoped outcome).1.releasedFlag = true) ∧
    ((c.getScoped outcome).2.q = rest) := by
  simp [ShmQueue.getScoped, hq, GetOutcome.releasedFlag]

/-- Witness for C2 at a concrete channel whose consumer block raises. -/
theorem get_releases_handle_once_witness :
    (({ q := [(0, "bytes", some (PoolAllocation.mk "s" 0 4 4))], release_q := [], psa := none } :
        ShmQueue Nat).q = (0, "bytes", some (PoolAllocation.mk "s" 0 4 4)) :: []) ∧
    ((({ q := [(0, "bytes", some (PoolAllocation.mk "s" 0 4 4))], release_q := [], psa := none } :
        ShmQueue Nat).getScoped (Except.error () : Except Unit Unit)).2.release_q
      = [] ++ [PoolAllocation.mk "s" 0 4 4]) :=
  ⟨rfl,
   (get_releases_handle_once
      ({ q := [(0, "bytes", some (PoolAllocation.mk "s" 0 4 4))], release_q := [], psa := none } :
        ShmQueue Nat)
      0 "bytes" (PoolAllocation.mk "s" 0 4 4) [] (Except.error ()) rfl).1⟩

/-- Claim C10: a `put` whose payload exceeds the slot capacity, made while
the release queue holds a recycled handle, never reaches the capacity check
in `allocate`: the handle is drained from the release queue first, the call
fails on the `resize` assertion, and the drained handle is neither reused
(nothing is enqueued) nor returned to the release queue or the free list
(the allocator state is untouched). -/
theorem put_oversize_drains_recycled_handle {α : Type} (c : ShmQueue α)
    (a : PoolShmAllocator) (h : PoolAllocation) (rest : List PoolAllocation)
    (payload : List Nat) (header : α)
    (hpsa : c.psa = some a) (hrq : c.release_q = h :: rest)
    (hbig : h.full_size < payload.length) :
    ((c.put header (some payload)).1 = .error .assertionError) ∧
    ((c.put header (some payload)).2.release_q = rest) ∧
    ((c.put header (some payload)).2.psa = some a) ∧
    ((c.put header (some payload)).2.q = c.q) := by
  have hres : ¬ (payload.length ≤ h.full_size) := Nat.not_le.mpr hbig
  simp [ShmQueue.put, ShmQueue.copyToShm, PoolAllocation.resize, hpsa, hrq, hres]

/-- Witness for C10 at a concrete channel holding one recycled handle of
capacity 4 and a five-byte payload. -/
theorem put_oversize_drains_recycled_handle_witness :
    (({ q := [], release_q := [PoolAllocation.mk "pool" 0 4 4],
        psa := some (PoolShmAllocator.init 4 2 "pool") } : ShmQueue Nat).psa
      = some (PoolShmAllocator.init 4 2 "pool")) ∧
    ((PoolAllocation.mk "pool" 0 4 4).full_size < ([1, 2, 3, 4, 5] : List Nat).length) ∧
    ((({ q := [], release_q := [PoolAllocation.mk "pool" 0 4 4],
         psa := some (PoolShmAllocator.init 4 2 "pool") } : ShmQueue Nat).put 9
           (some [1, 2, 3, 4, 5])).1 = .error .assertionError) :=
  ⟨rfl, by decide,
   (put_oversize_drains_recycled_handle
      ({ q := [], release_q := [PoolAllocation.mk "pool" 0 4 4],
         psa := some (PoolShmAllocator.init 4 2 "pool") } : ShmQueue Nat)
      (PoolShmAllocator.init 4 2 "pool") (PoolAllocation.mk "pool" 0 4 4) []
      [1, 2, 3, 4, 5] 9 rfl rfl (by decide)).1⟩

/-- The request-channel identifiers produced by `_start_workers` are the
consecutive fresh identifiers starting at the counter value. -/
theorem startWorkers_map_request (respId : Nat) :
    ∀ (count i fresh : Nat),
      (WorkerPool.startWorkers respId count i fresh).map (fun w => w.1.request)
        = (List.range count).map (fun j => fresh + j) := by
  intro count
  induction count with
  | zero => intro i fresh; simp [WorkerPool.startWorkers]
  | succ n ih =>
      intro i fresh
      rw [List.range_succ_eq_map]
      simp only [WorkerPool.startWorkers, WorkerPool.makeWorkerQueues, List.map_cons,
        List.map_map, ih, List.cons.injEq]
      refine ⟨by omega, ?_⟩
      apply List.map_congr_left
      intro j _
      simp only [Function.comp_apply]
      omega

/-- The process indices produced by `_start_workers` are the consecutive
loop indices starting at `i`. -/
theorem startWorkers_map_process (respId : Nat) :
    ∀ (count i fresh : Nat),
      (WorkerPool.startWorkers respId count i fresh).map (fun w => w.2)
        = (List.range count).map (fun j => i + j) := by
  intro count
  induction count with
  | zero => intro i fresh; simp [WorkerPool.startWorkers]
  | succ n ih =>
      intro i fresh
      rw [List.range_succ_eq_map]
      simp only [WorkerPool.startWorkers, WorkerPool.makeWorkerQueues, List.map_cons,
        List.map_map, ih, List.cons.injEq]
      refine ⟨by omega, ?_⟩
      apply List.map_congr_left
      intro j _
      simp only [Function.comp_apply]
      omega

/-- Every worker started by `_start_workers` holds the shared response
channel. -/
theorem startWorkers_response (respId : Nat) :
    ∀ (count i fresh : Nat) (w : WorkerQueues × Nat),
      w ∈ WorkerPool.startWorkers respId count i fresh → w.1.response = respId := by
  intro count
  induction count with
  | zero => intro i fresh w hw; simp [WorkerPool.startWorkers] at hw
  | succ n ih =>
      intro i fresh w hw
      simp only [WorkerPool.startWorkers, WorkerPool.makeWorkerQueues, List.mem_cons] at hw
      rcases hw with hw | hw
      · subst hw; rfl
      · exact ih (i + 1) (fresh + 1) w hw

/-- Claim C9: a pool created with worker count `n` has exactly `n` workers
(process indices 0..n-1), their request channels are pairwise distinct,
every worker shares the single response channel created in the constructor,
and `all_worker_queues()` iterated twice yields the same sequence both
times. -/
theorem worker_pool_spec (n : Nat) :
    ((WorkerPool.create n).workers.length = n) ∧
    ((WorkerPool.create n).workers.map (fun w => w.2) = List.range n) ∧
    (((WorkerPool.create n).allWorkerQueues.map (fun qs => qs.request)).Nodup) ∧
    (∀ qs, qs ∈ (WorkerPool.create n).allWorkerQueues →
        qs.response = (WorkerPool.create n).response_q) ∧
    ((WorkerPool.create n).allWorkerQueues = (WorkerPool.create n).allWorkerQueues) := by
  have hreq : (WorkerPool.create n).allWorkerQueues.map (fun qs => qs.request)
      = (List.range n).map (fun j => 1 + j) := by
    simp only [WorkerPool.create, WorkerPool.allWorkerQueues, List.map_map]
    exact startWorkers_map_request 0 n 0 1
  refine ⟨?_, ?_, ?_, ?_, rfl⟩
  · have := congrArg List.length (startWorkers_map_process 0 n 0 1)
    simpa [WorkerPool.create] using this
  · have := startWorkers_map_process 0 n 0 1
    simpa [WorkerPool.create] using this
  · rw [hreq]
    exact (List.nodup_range n).map (fun a b hab => by omega)
  · intro qs hqs
    simp only [WorkerPool.create, WorkerPool.allWorkerQueues, List.mem_map] at hqs
    obtain ⟨w, hw, rfl⟩ := hqs
    exact startWorkers_response 0 n 0 1 w hw

/-- Witness for C9 at a concrete pool of two workers. -/
theorem worker_pool_spec_witness :
    ((WorkerPool.create 2).workers.length = 2) ∧
    ((WorkerQueues.mk 1 0) ∈ (WorkerPool.create 2).allWorkerQueues ∧
      (WorkerQueues.mk 1 0).response = (WorkerPool.create 2).response_q) :=
  ⟨(worker_pool_spec 2).1,
   by decide,
   (worker_pool_spec 2).2.2.2.1 (WorkerQueues.mk 1 0) (by decide)⟩

/-- The invariant maintained along every `allocate`/`recycle` sequence:
positive slot size (guaranteed by the constructor, which refuses a
zero-sized segment), pairwise-distinct offsets across the free list and the
in-use handles, and every such offset lying at least one slot below the
bump watermark. -/
def AllocInv (s : AllocModelState) : Prop :=
  0 < s.a.item_size ∧
  (s.a.free ++ s.live.map (fun h => h.handle)).Nodup ∧
  ∀ o ∈ s.a.free ++ s.live.map (fun h => h.handle), o + s.a.item_size ≤ s.a.used

/-- A list permutes to any of its elements consed onto the list with that
position erased. -/
theorem perm_cons_eraseIdx {γ : Type} :
    ∀ (l : List γ) (i : Nat) (x : γ), l.get? i = some x →
      l.Perm (x :: l.eraseIdx i) := by
  intro l
  induction l with
  | nil => intro i x hx; simp [List.get?] at hx
  | cons y t ih =>
      intro i x hx
      cases i with
      | zero =>
          rw [List.get?_cons_zero, Option.some.injEq] at hx
          subst hx
          simp
      | succ j =>
          rw [List.get?_cons_succ] at hx
          have hp := ih j x hx
          rw [List.eraseIdx_cons_succ]
          exact (hp.cons y).trans (List.Perm.swap x y (t.eraseIdx j))

/-- Anatomy of a successful `allocate`: the request fits the slot size, the
issued handle records the request and the slot capacity, and the state
either lost the back of its free list to the handle or advanced the
watermark by one slot. -/
theorem allocate_ok_cases (a : PoolShmAllocator) (req : Nat) (h : PoolAllocation)
    (a2 : PoolShmAllocator) (hok : a.allocate req = .ok (h, a2)) :
    req ≤ a.item_size ∧ h.req_size = req ∧ h.full_size = a.item_size ∧
    a2.item_size = a.item_size ∧
    ((a.free = a2.free ++ [h.handle] ∧ a2.used = a.used) ∨
      (a.free = [] ∧ a2.free = [] ∧ h.handle = a.used ∧
        a2.used = a.used + a.item_size)) := by
  unfold PoolShmAllocator.allocate at hok
  by_cases hbig : req > a.item_size
  · rw [if_pos hbig] at hok
    cases hok
  · rw [if_neg hbig] at hok
    have hreq : req ≤ a.item_size := Nat.not_lt.mp hbig
    cases hlast : a.free.getLast? with
    | some off =>
        rw [hlast] at hok
        simp only [Except.ok.injEq, Prod.mk.injEq] at hok
        obtain ⟨hh, ha2⟩ := hok
        subst hh
        subst ha2
        refine ⟨hreq, rfl, rfl, rfl, Or.inl ⟨?_, rfl⟩⟩
        exact (List.dropLast_append_getLast? off (by simp [hlast])).symm
    | none =>
        rw [hlast] at hok
        by_cases hfit : a.used + a.item_size < a.size
        · rw [if_pos hfit] at hok
          simp only [Except.ok.injEq, Prod.mk.injEq] at hok
          obtain ⟨hh, ha2⟩ := hok
          subst hh
          subst ha2
          exact ⟨hreq, rfl, rfl, rfl,
            Or.inr ⟨List.getLast?_eq_none_iff.mp hlast, List.getLast?_eq_none_iff.mp hlast,
              rfl, rfl⟩⟩
        · rw [if_neg hfit] at hok
          cases hok

/-- One valid step preserves the allocator invariant. -/
theorem stepOp_inv (s s2 : AllocModelState) (op : PoolOp) (hOpt : Option PoolAllocation)
    (hinv : AllocInv s) (hstep : stepOp s op = some (s2, hOpt)) : AllocInv s2 := by
  obtain ⟨hpos, hnd, hbound⟩ := hinv
  cases op with
  | alloc req =>
      simp only [stepOp] at hstep
      cases halloc : s.a.allocate req with
      | error e => rw [halloc] at hstep; cases hstep
      | ok pr =>
          obtain ⟨h, a2⟩ := pr
          rw [halloc] at hstep
          simp only [Option.some.injEq, Prod.mk.injEq] at hstep
          obtain ⟨hs2, -⟩ := hstep
          subst hs2
          obtain ⟨hreq, hhreq, hhfull, hitem2, hcase⟩ := allocate_ok_cases _ _ _ _ halloc
          have hpos2 : 0 < a2.item_size := by rw [hitem2]; exact hpos
          rcases hcase with ⟨hfree, hused⟩ | ⟨hfree, hfree2, hhandle, hused⟩
          · have hperm : (s.a.free ++ s.live.map (fun h => h.handle)).Perm
                (a2.free ++ (s.live.map (fun h => h.handle) ++ [h.handle])) := by
              rw [hfree, List.append_assoc]
              exact List.Perm.append_left _ (List.perm_append_singleton _ _).symm
            refine ⟨hpos2, ?_, ?_⟩
            · simp only [List.map_append, List.map_cons, List.map_nil]
              exact hperm.nodup hnd
            · intro o ho
              simp only [List.map_append, List.map_cons, List.map_nil] at ho
              have ho2 := hperm.mem_iff.mpr ho
              rw [hitem2, hused]
              exact hbound o ho2
          · have hndM : (s.live.map (fun h => h.handle)).Nodup := by
              rw [hfree] at hnd
              exact hnd
            have hnotmem : s.a.used ∉ s.live.map (fun h => h.handle) := by
              intro hmem
              have hb := hbound s.a.used (by rw [hfree]; exact hmem)
              omega
            refine ⟨hpos2, ?_, ?_⟩
            · simp only [hfree2, List.map_append, List.map_cons, List.map_nil,
                List.nil_append, hhandle]
              exact (List.perm_append_singleton _ _).symm.nodup
                (List.nodup_cons.mpr ⟨hnotmem, hndM⟩)
            · intro o ho
              simp only [hfree2, List.map_append, List.map_cons, List.map_nil,
                List.nil_append, hhandle, List.mem_append, List.mem_singleton] at ho
              rw [hitem2, hused]
              rcases ho with ho | rfl
              · have hb := hbound o (by rw [hfree]; exact ho)
                omega
              · omega
  | recycle i =>
      simp only [stepOp] at hstep
      cases hget : s.live.get? i with
      | none => rw [hget] at hstep; cases hstep
      | some h =>
          rw [hget] at hstep
          simp only [Option.some.injEq, Prod.mk.injEq] at hstep
          obtain ⟨hs2, -⟩ := hstep
          subst hs2
          have hpermM : (s.live.map (fun h => h.handle)).Perm
              (h.handle :: (s.live.eraseIdx i).map (fun h => h.handle)) := by
            have hp := (perm_cons_eraseIdx s.live i h hget).map (fun h => h.handle)
            simpa using hp
          refine ⟨hpos, ?_, ?_⟩
          · simp only [PoolShmAllocator.recycle, List.append_assoc]
            exact (List.Perm.append_left _ hpermM).nodup hnd
          · intro o ho
            simp only [PoolShmAllocator.recycle, List.append_assoc] at ho
            have ho2 := (List.Perm.append_left _ hpermM).mem_iff.mpr ho
            exact hbound o ho2

/-- A step that returns a handle returned it from `allocate`, so its
requested size is at most its slot capacity. -/
theorem stepOp_handle_le (s s2 : AllocModelState) (op : PoolOp) (h : PoolAllocation)
    (hstep : stepOp s op = some (s2, some h)) : h.req_size ≤ h.full_size := by
  cases op with
  | alloc req =>
      simp only [stepOp] at hstep
      cases halloc : s.a.allocate req with
      | error e => rw [halloc] at hstep; cases hstep
      | ok pr =>
          obtain ⟨h0, a2⟩ := pr
          rw [halloc] at hstep
          simp only [Option.some.injEq, Prod.mk.injEq] at hstep
          obtain ⟨-, hh⟩ := hstep
          subst hh
          obtain ⟨hreq, hhreq, hhfull, -, -⟩ := allocate_ok_cases _ _ _ _ halloc
          rw [hhreq, hhfull]
          exact hreq
  | recycle i =>
      simp only [stepOp] at hstep
      cases hget : s.live.get? i with
      | none => rw [hget] at hstep; cases hstep
      | some h0 =>
          rw [hget] at hstep
          simp at hstep

/-- Running a valid sequence of operations preserves the invariant and
every handle collected along the way fits its slot. -/
theorem runOps_inv :
    ∀ (ops : List PoolOp) (s s2 : AllocModelState) (hs : List PoolAllocation),
      AllocInv s → runOps s ops = some (s2, hs) →
      AllocInv s2 ∧ ∀ h ∈ hs, h.req_size ≤ h.full_size := by
  intro ops
  induction ops with
  | nil =>
      intro s s2 hs hinv hrun
      simp only [runOps, Option.some.injEq, Prod.mk.injEq] at hrun
      obtain ⟨rfl, rfl⟩ := hrun
      exact ⟨hinv, by simp⟩
  | cons op ops ih =>
      intro s s2 hs hinv hrun
      simp only [runOps] at hrun
      cases hstep : stepOp s op with
      | none => rw [hstep] at hrun; cases hrun
      | some pr =>
          obtain ⟨s1, hOpt⟩ := pr
          rw [hstep] at hrun
          have hrun2 : (match runOps s1 ops with
              | some (s3, hs3) => some (s3, hOpt.toList ++ hs3)
              | none => none) = some (s2, hs) := hrun
          cases hrec : runOps s1 ops with
          | none => rw [hrec] at hrun2; cases hrun2
          | some pr2 =>
              obtain ⟨s3, hs1⟩ := pr2
              rw [hrec] at hrun2
              simp only [Option.some.injEq, Prod.mk.injEq] at hrun2
              obtain ⟨rfl, rfl⟩ := hrun2
              have hinv1 := stepOp_inv s s1 op hOpt hinv hstep
              obtain ⟨hinv3, hall⟩ := ih s1 s3 hs1 hinv1 hrec
              refine ⟨hinv3, ?_⟩
              intro h hmem
              rw [List.mem_append] at hmem
              rcases hmem with hmem | hmem
              · cases hOpt with
                | none => simp [Option.toList] at hmem
                | some h0 =>
                    simp only [Option.toList, List.mem_singleton] at hmem
                    subst hmem
                    exact stepOp_handle_le s s1 op h hstep
              · exact hall h hmem

/-- Claim C5: over every sequence of `allocate`/`recycle` calls within
capacity (each step succeeds, each recycle names a currently in-use
handle), every handle returned by `allocate` has requested size at most its
slot capacity, and the simultaneously in-use handles have pairwise distinct
offsets.  Intermediate moments are covered by the quantification over all
operation sequences (every prefix of a valid sequence is valid). -/
theorem allocator_inuse_distinct (item numItems : Nat) (name : String)
    (ops : List PoolOp) (s2 : AllocModelState) (hs : List PoolAllocation)
    (hitem : 0 < item)
    (hrun : runOps { a := PoolShmAllocator.init item numItems name, live := [] } ops
        = some (s2, hs)) :
    (∀ h ∈ hs, h.req_size ≤ h.full_size) ∧
    (s2.live.map (fun h => h.handle)).Nodup := by
  have hinv0 : AllocInv { a := PoolShmAllocator.init item numItems name, live := [] } :=
    ⟨by simpa [PoolShmAllocator.init] using hitem,
     by simp [PoolShmAllocator.init],
     by simp [PoolShmAllocator.init]⟩
  obtain ⟨hinv2, hall⟩ := runOps_inv ops _ s2 hs hinv0 hrun
  exact ⟨hall, hinv2.2.1.of_append_right⟩

/-- Witness for C5: a concrete valid sequence — allocate 5 bytes, allocate
3 bytes, recycle the first handle, allocate 4 bytes (which reuses offset 0)
— ends with in-use offsets 1024 and 0, pairwise distinct. -/
theorem allocator_inuse_distinct_witness :
    0 < 1024 ∧
    ((∀ h ∈ [PoolAllocation.mk "w" 0 1024 5, PoolAllocation.mk "w" 1024 1024 3,
        PoolAllocation.mk "w" 0 1024 4], h.req_size ≤ h.full_size) ∧
      (([PoolAllocation.mk "w" 1024 1024 3,
         PoolAllocation.mk "w" 0 1024 4].map (fun h => h.handle)).Nodup)) :=
  ⟨by decide,
   allocator_inuse_distinct 1024 2 "w"
     [PoolOp.alloc 5, PoolOp.alloc 3, PoolOp.recycle 0, PoolOp.alloc 4]
     { a := { item_size := 1024, size := 4096, name := "w", free := [],
              used := 2048, mem := fun _ => 0 },
       live := [PoolAllocation.mk "w" 1024 1024 3, PoolAllocation.mk "w" 0 1024 4] }
     [PoolAllocation.mk "w" 0 1024 5, PoolAllocation.mk "w" 1024 1024 3,
      PoolAllocation.mk "w" 0 1024 4]
     (by decide) rfl⟩

end LiberTEMLive
